import Mathlib

set_option linter.unusedVariables false

namespace Cita

/-- A byte-string digest (H256 etc.), modelled as its byte sequence. -/
abbrev H256 := List Nat

/-- Modulus of Rust `u64`/`usize` arithmetic on a 64-bit platform; additions in
the source wrap at this modulus in release builds. -/
def U64MOD : Nat := 2 ^ 64

/-- `usize::MAX` = `u64::MAX` on a 64-bit platform; used by the source as the
proof-only pseudo-block sentinel height and as the unset `max_store_height`
marker. -/
def usizeMAX : Nat := 2 ^ 64 - 1

/-- `BLOCKLIMIT` from the `util` crate: the validity-window width `L`.
The test suite and the spec's scenarios fix `L = 100`. -/
def BLOCKLIMIT : Nat := 100

/-- Association-list model of `HashMap<u64, V>`: `insert` replaces any existing
binding for the key, so key lists built with `mapInsert`/`mapRemove` stay
duplicate-free and `List.length` is the number of distinct keys, matching
`HashMap::len`. -/
def mapInsert {α : Type} (k : Nat) (v : α) (m : List (Nat × α)) : List (Nat × α) :=
  (k, v) :: m.filter (fun p => p.1 != k)

/-- `HashMap::remove` on the association-list model. -/
def mapRemove {α : Type} (k : Nat) (m : List (Nat × α)) : List (Nat × α) :=
  m.filter (fun p => p.1 != k)

/-- `HashMap::get` on the association-list model. -/
def mapGet {α : Type} (k : Nat) (m : List (Nat × α)) : Option α :=
  (m.find? (fun p => p.1 == k)).map (fun p => p.2)

/-- The key list of the association-list model. -/
def keysOf {α : Type} (m : List (Nat × α)) : List Nat := m.map Prod.fst

/-- The removal loop `for i in lo..hi { self.hashes.remove(&i); }`. -/
def removeRange {α : Type} (lo hi : Nat) (m : List (Nat × α)) : List (Nat × α) :=
  (List.range' lo (hi - lo)).foldl (fun acc i => mapRemove i acc) m

/-- The `Verifier` struct of `cita-auth/src/verifier.rs` (the spec's
HashWindow): init flag, sliding-window bounds, and the per-height tx-hash
sets. Each hash set is modelled as the list of its members. -/
structure Verifier where
  inited : Bool
  height_latest : Option Nat
  height_low : Option Nat
  hashes : List (Nat × List H256)
deriving DecidableEq

/-- `Verifier::new` / `Verifier::default`. -/
def Verifier.new : Verifier :=
  { inited := false, height_latest := none, height_low := none, hashes := [] }

/-- The `height_low` computation appearing in both branches of
`update_hashes`: `if h < BLOCKLIMIT { 0 } else { h - BLOCKLIMIT + 1 }`. -/
def computeLow (h : Nat) : Nat :=
  if h < BLOCKLIMIT then 0 else h - BLOCKLIMIT + 1

/-- `Verifier::send_txhashs_req(low, high, tx_pub)`: emits one
`BlockTxHashesReq` per height in `low..high`; modelled as the list of emitted
heights. -/
def send_txhashs_req (low high : Nat) : List Nat :=
  List.range' low (high - low)

/-- Tail of `update_hashes`: `self.hashes.insert(h, hashes)` followed by the
`inited` check `self.hashes.len() == latest - low + 1`. -/
def finishInsert (v : Verifier) (h : Nat) (s : List H256) (out : List Nat) :
    Verifier × List Nat :=
  let m := mapInsert h s v.hashes
  let fullCount := v.height_latest.getD 0 - v.height_low.getD 0 + 1
  ({ v with hashes := m, inited := v.inited || (m.length == fullCount) }, out)

/-- First-call branch of `update_hashes` (both `height_latest` and
`height_low` are `None`). -/
def updateFirst (v : Verifier) (h : Nat) (s : List H256) : Verifier × List Nat :=
  let low := computeLow h
  let v1 : Verifier := { v with height_latest := some h, height_low := some low }
  finishInsert v1 h s (send_txhashs_req low h)

/-- Non-first-call branch of `update_hashes`. The `current_height + 1` and
`h + 1` additions are `u64` additions and wrap at `2^64`. -/
def updateElse (v : Verifier) (h : Nat) (s : List H256) : Verifier × List Nat :=
  let current := v.height_latest.getD 0
  let succ := (current + 1) % U64MOD
  if h = succ then
    let newLow := computeLow h
    let v1 : Verifier :=
      { v with
        height_latest := some h
        height_low := some newLow
        hashes := removeRange (v.height_low.getD 0) newLow v.hashes }
    if h < newLow then (v1, []) else finishInsert v1 h s []
  else if succ < h then
    (v, send_txhashs_req succ ((h + 1) % U64MOD))
  else
    if h < v.height_low.getD 0 then (v, [])
    else finishInsert v h s []

/-- `Verifier::update_hashes(h, hashes, tx_pub)`; the second component of the
result is the list of heights for which a backfill `BlockTxHashesReq` was
emitted on `tx_pub`. -/
def update_hashes (v : Verifier) (h : Nat) (s : List H256) : Verifier × List Nat :=
  match v.height_latest, v.height_low with
  | none, none => updateFirst v h s
  | _, _ => updateElse v h s

/-- `Verifier::check_hash_exist`: `true` whenever the window is not yet
initialized, otherwise membership of the hash in any retained set. -/
def check_hash_exist (v : Verifier) (hsh : H256) : Bool :=
  if !v.inited then true
  else v.hashes.any (fun p => p.2.contains hsh)

/-- `Verifier::verify_valid_until_block`: requires `height_latest` present;
the `height + BLOCKLIMIT` addition is a `u64` addition and wraps at `2^64`. -/
def verify_valid_until_block (v : Verifier) (valid_until_block : Nat) : Bool :=
  match v.height_latest with
  | none => false
  | some height =>
      decide (height < valid_until_block) &&
      decide (valid_until_block ≤ (height + BLOCKLIMIT) % U64MOD)

/-- A recovered public key: the `crypto` crate's `PubKey` is an `H512`,
a 64-byte array. -/
def PubKey := { l : List Nat // l.length = 64 }

/-- The `libproto` `Crypto` enum: `SECP` plus the other variants, of which the
source supports none (collapsed to one representative). -/
inductive Crypto
  | SECP
  | SM2
deriving DecidableEq

/-- The `libproto` `Ret` codes used by `verfiy_tx`. -/
inductive Ret
  | OK
  | InvalidNonce
  | Dup
  | NotReady
  | BadSig
  | InvalidUntilBlock
deriving DecidableEq

/-- The fields of `libproto::VerifyTxReq` read by the verifier. -/
structure VerifyTxReq where
  tx_hash : List Nat
  hash : List Nat
  signature : List Nat
  crypto : Crypto
  nonce : List Nat
  signer : List Nat
  valid_until_block : Nat

/-- The fields of `libproto::VerifyTxResp` written by the verifier; a fresh
response has empty `tx_hash` and `signer` and protobuf-default `ret`. -/
structure VerifyTxResp where
  tx_hash : List Nat
  ret : Ret
  signer : List Nat
deriving DecidableEq

/-- Modelled from the spec: the out-of-scope `crypto` collaborator, which is
abstracted as a recoverable signature scheme over a digest: a constant
`SIGNATURE_BYTES_LEN` and a recovery function from `(hash, signature)` to an
optional public key (`sig.recover(&hash)`). -/
structure CryptoModel where
  SIGNATURE_BYTES_LEN : Nat
  recover : List Nat → List Nat → Option PubKey

/-- `Verifier::verify_sig`: length check, crypto-kind dispatch, recovery;
`Err(())` is modelled as `none`. -/
def verify_sig (cm : CryptoModel) (req : VerifyTxReq) : Option PubKey :=
  if req.signature.length ≠ cm.SIGNATURE_BYTES_LEN then none
  else
    match req.crypto with
    | Crypto.SECP => cm.recover req.hash req.signature
    | _ => none

/-- `Verifier::verfiy_tx` (source spelling): nonce-length check, duplicate
window check, signature check, optional signer match, then `OK` with the
recovered signer. -/
def verfiy_tx (cm : CryptoModel) (v : Verifier) (req : VerifyTxReq) : VerifyTxResp :=
  if 128 < req.nonce.length then
    { tx_hash := req.tx_hash, ret := Ret.InvalidNonce, signer := [] }
  else if check_hash_exist v req.tx_hash then
    { tx_hash := req.tx_hash, ret := if v.inited then Ret.Dup else Ret.NotReady,
      signer := [] }
  else
    match verify_sig cm req with
    | none => { tx_hash := req.tx_hash, ret := Ret.BadSig, signer := [] }
    | some pk =>
        if req.signer ≠ [] ∧ req.signer ≠ pk.val then
          { tx_hash := req.tx_hash, ret := Ret.BadSig, signer := [] }
        else
          { tx_hash := req.tx_hash, ret := Ret.OK, signer := pk.val }

/-- The consensus proof types of the `libproto` `ProofType` enum. -/
inductive ProofType
  | Tendermint
  | Raft
  | AuthorityRound
deriving DecidableEq

/-- A consensus proof as seen by `cita-chain/src/forward.rs`: the
`TendermintProof` height (a `usize`) plus an opaque payload distinguishing
distinct proofs. -/
structure Proof where
  height : Nat
  data : Nat
deriving DecidableEq

/-- The fields of a block read by `forward.rs`: the header height, the proof
type, and the header proof. The transaction-hash payload of
`delivery_block_tx_hashes` is elided; emissions are recorded as heights. -/
structure Block where
  height : Nat
  proof_type : Option ProofType
  proof : Proof
deriving DecidableEq

/-- `core::libchain::chain::BlockInQueue` as used by `forward.rs`. -/
inductive BlockInQueue
  | ConsensusBlock (b : Block) (p : Proof)
  | SyncBlock (b : Block) (p : Option Proof)
deriving DecidableEq

/-- `libproto::BlockWithProof`. -/
structure BlockWithProof where
  blk : Block
  proof : Proof

/-- Modelled from the spec: the chain-store collaborator state touched by
`forward.rs` (the `Chain` struct lives outside this repository slice).
`block_map` is the height-keyed queue, `max_store_height`/`max_height`/
`current_height` are the atomics, `saved_proof` is the target of
`save_current_block_poof` and `bodies` the target of `set_block_body`. -/
structure ChainState where
  block_map : List (Nat × BlockInQueue)
  max_store_height : Nat
  max_height : Nat
  current_height : Nat
  chain_proof_type : Option ProofType
  saved_proof : Option Proof
  bodies : List (Nat × Block)
deriving DecidableEq

/-- `Forward::consensus_block_enqueue`: accept a consensus block exactly when
its height is `max_store_height + 1` (a `usize` addition, wrapping at `2^64`);
on acceptance insert the `ConsensusBlock` entry, persist proof and body,
advance `max_store_height`, and emit `BlockTxHashes` for the height. The
second component records the heights for which `BlockTxHashes` was emitted. -/
def consensus_block_enqueue (s : ChainState) (pb : BlockWithProof) :
    ChainState × List Nat :=
  let current := s.max_store_height
  let h := pb.blk.height
  if h = (current + 1) % U64MOD then
    ({ s with
       block_map := mapInsert h (BlockInQueue.ConsensusBlock pb.blk pb.proof) s.block_map
       saved_proof := some pb.proof
       bodies := mapInsert h pb.blk s.bodies
       max_store_height := h }, [h])
  else (s, [])

/-- The `is_none`-guarded proof-slot update applied to a single queue entry:
a `SyncBlock` with `None` proof receives `some p`; anything else is left
untouched. -/
def fillEntry (p : Proof) (q : BlockInQueue) : BlockInQueue :=
  match q with
  | BlockInQueue.SyncBlock blk none => BlockInQueue.SyncBlock blk (some p)
  | q => q

/-- The guarded proof-slot fill of `add_sync_block`: if the entry at `k` is a
`SyncBlock` with `None` proof, set its proof to `some p`; anything else is
left untouched (`blocks.get_mut` + `is_none` + `mem::swap`). -/
def fillProofSlot (k : Nat) (p : Proof) (m : List (Nat × BlockInQueue)) :
    List (Nat × BlockInQueue) :=
  m.map (fun e => if e.1 = k then (e.1, fillEntry p e.2) else e)

/-- `Forward::add_sync_block`. Returns `none` for the `unimplemented!()` panic
arm (non-Tendermint proof type matching the chain's); otherwise the updated
state and the heights for which `BlockTxHashes` was emitted. `proof_height`
maps the `usize::MAX` sentinel to 0 as in the source. -/
def add_sync_block (s : ChainState) (b : Block) : Option (ChainState × List Nat) :=
  if s.chain_proof_type ≠ b.proof_type then some (s, [])
  else
    match b.proof_type with
    | some ProofType.Tendermint =>
        let proof_height := if b.proof.height = usizeMAX then 0 else b.proof.height
        if b.height ≠ usizeMAX then
          if proof_height = s.max_height ∨ proof_height = s.max_store_height then
            some ({ s with
                    block_map := mapInsert b.height (BlockInQueue.SyncBlock b none)
                                   (fillProofSlot proof_height b.proof s.block_map)
                    bodies := mapInsert b.height b s.bodies
                    max_store_height := b.height }, [b.height])
          else some (s, [])
        else
          if s.current_height < proof_height then
            some ({ s with block_map := fillProofSlot proof_height b.proof s.block_map }, [])
          else some (s, [])
    | _ => none

theorem mem_keysOf {α : Type} (j : Nat) (m : List (Nat × α)) :
    j ∈ keysOf m ↔ ∃ x, (j, x) ∈ m := by
  unfold keysOf
  constructor
  · intro hj
    rcases List.mem_map.1 hj with ⟨p, hp, hpe⟩
    exact ⟨p.2, by simpa [← hpe] using hp⟩
  · rintro ⟨x, hx⟩
    exact List.mem_map.2 ⟨(j, x), hx, rfl⟩

theorem mem_keysOf_mapInsert {α : Type} (j k : Nat) (v : α) (m : List (Nat × α)) :
    j ∈ keysOf (mapInsert k v m) ↔ j = k ∨ (j ∈ keysOf m ∧ j ≠ k) := by
  simp only [keysOf, mapInsert, List.map_cons, List.mem_cons, List.mem_map,
    List.mem_filter, bne_iff_ne]
  constructor
  · rintro (h | ⟨p, ⟨hp, hpk⟩, rfl⟩)
    · exact Or.inl h
    · exact Or.inr ⟨⟨p, hp, rfl⟩, hpk⟩
  · rintro (h | ⟨⟨p, hp, rfl⟩, hk⟩)
    · exact Or.inl h
    · exact Or.inr ⟨p, ⟨hp, hk⟩, rfl⟩

theorem nodup_keysOf_mapInsert {α : Type} (k : Nat) (v : α) (m : List (Nat × α))
    (hm : (keysOf m).Nodup) : (keysOf (mapInsert k v m)).Nodup := by
  simp only [keysOf, mapInsert, List.map_cons]
  refine List.Nodup.cons ?_ ?_
  · intro hk
    rcases List.mem_map.1 hk with ⟨p, hp, hpe⟩
    exact absurd hpe (by simpa [bne_iff_ne] using (List.mem_filter.1 hp).2)
  · exact List.Nodup.sublist (List.Sublist.map _ (List.filter_sublist m)) hm

theorem mem_keysOf_mapRemove {α : Type} (j k : Nat) (m : List (Nat × α)) :
    j ∈ keysOf (mapRemove k m) ↔ j ∈ keysOf m ∧ j ≠ k := by
  simp only [keysOf, mapRemove, List.mem_map, List.mem_filter, bne_iff_ne]
  constructor
  · rintro ⟨p, ⟨hp, hpk⟩, rfl⟩
    exact ⟨⟨p, hp, rfl⟩, hpk⟩
  · rintro ⟨⟨p, hp, rfl⟩, hk⟩
    exact ⟨p, ⟨hp, hk⟩, rfl⟩

theorem nodup_keysOf_mapRemove {α : Type} (k : Nat) (m : List (Nat × α))
    (hm : (keysOf m).Nodup) : (keysOf (mapRemove k m)).Nodup :=
  List.Nodup.sublist (List.Sublist.map _ (List.filter_sublist m)) hm

theorem mem_keysOf_foldl_remove {α : Type} (l : List Nat) (m : List (Nat × α)) (j : Nat) :
    j ∈ keysOf (l.foldl (fun acc i => mapRemove i acc) m) ↔ j ∈ keysOf m ∧ j ∉ l := by
  induction l generalizing m with
  | nil => simp
  | cons a t ih =>
      simp only [List.foldl_cons, ih, mem_keysOf_mapRemove, List.mem_cons]
      constructor
      · rintro ⟨⟨hj, hja⟩, hjt⟩
        exact ⟨hj, by rintro (rfl | h) <;> [exact hja rfl; exact hjt h]⟩
      · rintro ⟨hj, hna⟩
        exact ⟨⟨hj, fun he => hna (Or.inl he)⟩, fun ht => hna (Or.inr ht)⟩

theorem nodup_keysOf_foldl_remove {α : Type} (l : List Nat) (m : List (Nat × α))
    (hm : (keysOf m).Nodup) : (keysOf (l.foldl (fun acc i => mapRemove i acc) m)).Nodup := by
  induction l generalizing m with
  | nil => exact hm
  | cons a t ih => exact ih _ (nodup_keysOf_mapRemove a m hm)

theorem mem_keysOf_removeRange {α : Type} (lo hi j : Nat) (m : List (Nat × α)) :
    j ∈ keysOf (removeRange lo hi m) ↔ j ∈ keysOf m ∧ ¬(lo ≤ j ∧ j < hi) := by
  unfold removeRange
  rw [mem_keysOf_foldl_remove]
  have : j ∈ List.range' lo (hi - lo) ↔ lo ≤ j ∧ j < hi := by
    rw [List.mem_range'_1]
    omega
  rw [this]

theorem nodup_keysOf_removeRange {α : Type} (lo hi : Nat) (m : List (Nat × α))
    (hm : (keysOf m).Nodup) : (keysOf (removeRange lo hi m)).Nodup :=
  nodup_keysOf_foldl_remove _ m hm

theorem find?_filter_ne {α : Type} (j k : Nat) (hjk : j ≠ k) (m : List (Nat × α)) :
    (m.filter (fun p => p.1 != k)).find? (fun p => p.1 == j) =
      m.find? (fun p => p.1 == j) := by
  induction m with
  | nil => rfl
  | cons p t ih =>
      by_cases hpk : p.1 = k
      · have hfil : (p :: t).filter (fun p => p.1 != k) = t.filter (fun p => p.1 != k) := by
          simp [List.filter_cons, hpk]
        have hnp : ¬((fun p : Nat × α => p.1 == j) p = true) := by
          simp only [beq_iff_eq, hpk]
          exact fun h => hjk h.symm
        rw [hfil, ih]
        exact (List.find?_cons_of_neg t hnp).symm
      · have hfil : (p :: t).filter (fun p => p.1 != k) =
            p :: t.filter (fun p => p.1 != k) := by
          simp [List.filter_cons, hpk]
        rw [hfil]
        by_cases hpj : p.1 = j
        · rw [List.find?_cons_of_pos _ (by simp [hpj]),
            List.find?_cons_of_pos _ (by simp [hpj])]
        · rw [List.find?_cons_of_neg _ (by simp [hpj]),
            List.find?_cons_of_neg _ (by simp [hpj]), ih]

theorem mapGet_mapInsert {α : Type} (j k : Nat) (v : α) (m : List (Nat × α)) :
    mapGet j (mapInsert k v m) = if j = k then some v else mapGet j m := by
  by_cases hjk : j = k
  · subst hjk
    simp [mapGet, mapInsert]
  · simp only [mapGet, mapInsert, if_neg hjk]
    rw [List.find?_cons_of_neg _ (by simp only [beq_iff_eq]; exact fun h => hjk h.symm),
      find?_filter_ne j k hjk]

theorem length_le_of_nodup_bounded (l : List Nat) (a b : Nat) (hn : l.Nodup)
    (hb : ∀ k ∈ l, a ≤ k ∧ k ≤ b) : l.length ≤ b + 1 - a := by
  have hsub : l.toFinset ⊆ Finset.Icc a b := by
    intro k hk
    rw [List.mem_toFinset] at hk
    rcases hb k hk with ⟨h1, h2⟩
    exact Finset.mem_Icc.2 ⟨h1, h2⟩
  have := Finset.card_le_card hsub
  rw [List.toFinset_card_of_nodup hn, Nat.card_Icc] at this
  exact this

theorem mapGet_fillProofSlot (j k : Nat) (p : Proof) (m : List (Nat × BlockInQueue)) :
    mapGet j (fillProofSlot k p m) =
      if j = k then (mapGet j m).map (fillEntry p) else mapGet j m := by
  induction m with
  | nil => by_cases hjk : j = k <;> simp [mapGet, fillProofSlot, hjk]
  | cons e t ih =>
      simp only [fillProofSlot] at ih ⊢
      simp only [List.map_cons]
      by_cases hek : e.1 = k
      · rw [if_pos hek]
        by_cases hje : j = e.1
        · have hjk : j = k := hje.trans hek
          simp only [mapGet, if_pos hjk]
          rw [List.find?_cons_of_pos _ (by simp [hje.symm]),
            List.find?_cons_of_pos _ (by simp [hje.symm])]
          rfl
        · simp only [mapGet] at ih ⊢
          rw [List.find?_cons_of_neg _ (by simp; exact fun hc => hje hc.symm),
            List.find?_cons_of_neg _ (by simp; exact fun hc => hje hc.symm)]
          exact ih
      · rw [if_neg hek]
        by_cases hje : j = e.1
        · have hjk : ¬(j = k) := fun hc => hek (hje.symm.trans hc)
          simp only [mapGet, if_neg hjk]
          rw [List.find?_cons_of_pos _ (by simp [hje.symm]),
            List.find?_cons_of_pos _ (by simp [hje.symm])]
        · simp only [mapGet] at ih ⊢
          rw [List.find?_cons_of_neg _ (by simp; exact fun hc => hje hc.symm),
            List.find?_cons_of_neg _ (by simp; exact fun hc => hje hc.symm)]
          exact ih

theorem computeLow_le (h : Nat) : computeLow h ≤ h := by
  unfold computeLow BLOCKLIMIT
  split <;> omega

theorem computeLow_eq_max (h : Nat) :
    (computeLow h : ℤ) = max 0 ((h : ℤ) - BLOCKLIMIT + 1) := by
  unfold computeLow BLOCKLIMIT
  split <;> omega

theorem update_hashes_eq_first (v : Verifier) (h : Nat) (s : List H256)
    (hl : v.height_latest = none) (hlo : v.height_low = none) :
    update_hashes v h s = updateFirst v h s := by
  unfold update_hashes
  rw [hl, hlo]

theorem update_hashes_eq_else (v : Verifier) (n h : Nat) (s : List H256)
    (hl : v.height_latest = some n) :
    update_hashes v h s = updateElse v h s := by
  unfold update_hashes
  rw [hl]

/-- The driver loop: `update_hashes` applied to a sequence of
`(height, hash set)` deliveries in order (the auth thread's processing of
successive `BlockTxHashes` messages). -/
def applyCalls (v : Verifier) (ops : List (Nat × List H256)) : Verifier :=
  ops.foldl (fun acc p => (update_hashes acc p.1 p.2).1) v

/-- The window invariant maintained by `update_hashes` when every delivered
height stays below the `u64::MAX` wrap-around point. -/
def VOk (v : Verifier) : Prop :=
  (v.height_latest = none ∧ v.height_low = none ∧ v.hashes = []) ∨
  (∃ n, n < usizeMAX ∧ v.height_latest = some n ∧ v.height_low = some (computeLow n) ∧
    (keysOf v.hashes).Nodup ∧ ∀ k ∈ keysOf v.hashes, computeLow n ≤ k ∧ k ≤ n)

theorem VOk_new : VOk Verifier.new := by
  left
  exact ⟨rfl, rfl, rfl⟩

theorem VOk_update (v : Verifier) (h : Nat) (s : List H256) (hv : VOk v)
    (hh : h < usizeMAX) : VOk (update_hashes v h s).1 := by
  rcases hv with ⟨hl, hlo, hhs⟩ | ⟨n, hn, hl, hlo, hnd, hbd⟩
  · rw [update_hashes_eq_first v h s hl hlo]
    unfold updateFirst finishInsert
    right
    refine ⟨h, hh, rfl, rfl, ?_, ?_⟩
    · show (keysOf (mapInsert h s v.hashes)).Nodup
      rw [hhs]
      simp [keysOf, mapInsert]
    · intro k hk
      rw [hhs] at hk
      rcases (mem_keysOf_mapInsert k h s []).1 hk with rfl | ⟨hmem, _⟩
      · exact ⟨computeLow_le k, le_refl k⟩
      · simp [keysOf] at hmem
  · rw [update_hashes_eq_else v n h s hl]
    have hsucc : (n + 1) % U64MOD = n + 1 := by
      apply Nat.mod_eq_of_lt
      unfold usizeMAX at hn
      unfold U64MOD
      omega
    unfold updateElse
    rw [hl, hlo]
    simp only [Option.getD_some, hsucc]
    by_cases he : h = n + 1
    · rw [if_pos he, if_neg (by have := computeLow_le h; omega)]
      unfold finishInsert
      right
      refine ⟨h, hh, rfl, rfl, ?_, ?_⟩
      · show (keysOf (mapInsert h s (removeRange (computeLow n) (computeLow h) v.hashes))).Nodup
        exact nodup_keysOf_mapInsert _ _ _ (nodup_keysOf_removeRange _ _ _ hnd)
      · intro k hk
        rcases (mem_keysOf_mapInsert k h s _).1 hk with rfl | ⟨hmem, hne⟩
        · exact ⟨computeLow_le k, le_refl k⟩
        · rcases (mem_keysOf_removeRange _ _ _ _).1 hmem with ⟨hmem', hout⟩
          rcases hbd k hmem' with ⟨hk1, hk2⟩
          constructor
          · omega
          · omega
    · rw [if_neg he]
      by_cases hgt : n + 1 < h
      · rw [if_pos hgt]
        right
        exact ⟨n, hn, hl, hlo, hnd, hbd⟩
      · rw [if_neg hgt]
        by_cases hlt : h < computeLow n
        · rw [if_pos hlt]
          right
          exact ⟨n, hn, hl, hlo, hnd, hbd⟩
        · rw [if_neg hlt]
          unfold finishInsert
          right
          refine ⟨n, hn, hl, hlo, ?_, ?_⟩
          · show (keysOf (mapInsert h s v.hashes)).Nodup
            exact nodup_keysOf_mapInsert _ _ _ hnd
          · intro k hk
            rcases (mem_keysOf_mapInsert k h s _).1 hk with rfl | ⟨hmem, hne⟩
            · omega
            · exact hbd k hmem

theorem VOk_applyCalls (ops : List (Nat × List H256)) (v : Verifier) (hv : VOk v)
    (hops : ∀ p ∈ ops, p.1 < usizeMAX) : VOk (applyCalls v ops) := by
  induction ops generalizing v with
  | nil => exact hv
  | cons p t ih =>
      exact ih _ (VOk_update v p.1 p.2 hv (hops p (List.mem_cons_self p t)))
        (fun q hq => hops q (List.mem_cons_of_mem p hq))

theorem VOk_length_le (v : Verifier) (hv : VOk v) : v.hashes.length ≤ BLOCKLIMIT := by
  rcases hv with ⟨_, _, hhs⟩ | ⟨n, hn, hl, hlo, hnd, hbd⟩
  · rw [hhs]
    simp [BLOCKLIMIT]
  · have hlen : v.hashes.length = (keysOf v.hashes).length := by
      simp [keysOf]
    rw [hlen]
    have := length_le_of_nodup_bounded (keysOf v.hashes) (computeLow n) n hnd hbd
    unfold computeLow BLOCKLIMIT at *
    split at this <;> omega

/-- Claim C4: on the first `update_hashes(h, set)` call of a fresh Verifier,
`latest` becomes `h`, `low` becomes `max(0, h - BLOCKLIMIT + 1)`, exactly one
backfill request is emitted per height in `[low, h)`, and `(h, set)` is
inserted; for `h = 0` no backfill is emitted and `inited` becomes true, and
for `h = 100` (with `L = 100`) `inited` stays false, `latest = 100`,
`low = 1`, and backfill is emitted for heights `[1, 100)`. -/
theorem C4_first_update (h : Nat) (s : List H256) :
    (update_hashes Verifier.new h s).1.height_latest = some h
    ∧ (update_hashes Verifier.new h s).1.height_low = some (computeLow h)
    ∧ (computeLow h : ℤ) = max 0 ((h : ℤ) - BLOCKLIMIT + 1)
    ∧ (update_hashes Verifier.new h s).2 = List.range' (computeLow h) (h - computeLow h)
    ∧ (∀ k, k ∈ (update_hashes Verifier.new h s).2 ↔ computeLow h ≤ k ∧ k < h)
    ∧ (update_hashes Verifier.new h s).2.Nodup
    ∧ mapGet h (update_hashes Verifier.new h s).1.hashes = some s
    ∧ (update_hashes Verifier.new 0 s).1.inited = true
    ∧ (update_hashes Verifier.new 0 s).2 = []
    ∧ (update_hashes Verifier.new 100 s).1.inited = false
    ∧ (update_hashes Verifier.new 100 s).1.height_latest = some 100
    ∧ (update_hashes Verifier.new 100 s).1.height_low = some 1
    ∧ (update_hashes Verifier.new 100 s).2 = List.range' 1 99 := by
  have hle := computeLow_le h
  refine ⟨rfl, rfl, computeLow_eq_max h, rfl, ?_, ?_, ?_, rfl, rfl, rfl, rfl, rfl, rfl⟩
  · intro k
    show k ∈ send_txhashs_req (computeLow h) h ↔ _
    unfold send_txhashs_req
    rw [List.mem_range'_1]
    omega
  · show (send_txhashs_req (computeLow h) h).Nodup
    unfold send_txhashs_req
    exact List.nodup_range' _ _
  · show mapGet h (mapInsert h s []) = some s
    rw [mapGet_mapInsert]
    simp

/-- State reached from a fresh Verifier by the two calls
`update_hashes(u64::MAX, ∅)` then `update_hashes(0, ∅)`: the second call's
`current_height + 1` wraps to `0`, so the forward-step branch runs while the
stale key `u64::MAX` stays in the map. -/
def vC3bad : Verifier := applyCalls Verifier.new [(2 ^ 64 - 1, []), (0, [])]

/-- Claim C3 counterexample: after the call sequence
`update_hashes(2^64 - 1, ∅); update_hashes(0, ∅)` from a fresh Verifier, the
key `2^64 - 1` is still retained while `height_latest = 0`, so the retained
key is not in `[height_low, height_latest]` as the claim requires. -/
theorem C3_cex :
    vC3bad.height_latest = some 0
    ∧ vC3bad.height_low = some 0
    ∧ mapGet (2 ^ 64 - 1) vC3bad.hashes = some []
    ∧ (0 : Nat) < 2 ^ 64 - 1 := by
  exact ⟨rfl, rfl, rfl, by decide⟩

/-- Claim C3 (amended): for every sequence of `update_hashes` calls starting
from a fresh Verifier in which every delivered height is below `2^64 - 1`
(so no `u64` wrap-around occurs), afterwards the hashes map has at most
`BLOCKLIMIT` entries and every retained key `k` satisfies
`height_low ≤ k ≤ height_latest`, with
`height_low = max(0, height_latest - BLOCKLIMIT + 1)`. -/
theorem C3_window_invariant (ops : List (Nat × List H256))
    (hops : ∀ p ∈ ops, p.1 < 2 ^ 64 - 1) :
    (applyCalls Verifier.new ops).hashes.length ≤ BLOCKLIMIT
    ∧ (∀ n, (applyCalls Verifier.new ops).height_latest = some n →
        (applyCalls Verifier.new ops).height_low = some (computeLow n)
        ∧ (computeLow n : ℤ) = max 0 ((n : ℤ) - BLOCKLIMIT + 1)
        ∧ ∀ k ∈ keysOf (applyCalls Verifier.new ops).hashes, computeLow n ≤ k ∧ k ≤ n)
    ∧ ((applyCalls Verifier.new ops).height_latest = none →
        (applyCalls Verifier.new ops).hashes = []) := by
  have hv := VOk_applyCalls ops Verifier.new VOk_new hops
  refine ⟨VOk_length_le _ hv, ?_, ?_⟩
  · intro n hn
    rcases hv with ⟨hl, _, _⟩ | ⟨m, hm, hl, hlo, hnd, hbd⟩
    · rw [hl] at hn
      cases hn
    · rw [hl] at hn
      injection hn with hnm
      subst hnm
      exact ⟨hlo, computeLow_eq_max _, hbd⟩
  · intro hnone
    rcases hv with ⟨_, _, hhs⟩ | ⟨m, _, hl, _⟩
    · exact hhs
    · rw [hl] at hnone
      cases hnone

/-- Witness for C3_window_invariant at the concrete call sequence
`update_hashes(2, ∅); update_hashes(3, ∅)`. -/
theorem C3_window_invariant_witness :
    (applyCalls Verifier.new [(2, []), (3, [])]).hashes.length ≤ BLOCKLIMIT :=
  (C3_window_invariant [(2, []), (3, [])] (by decide)).1

/-- A Verifier state with `height_latest = 5` and an empty window. -/
def vC5 : Verifier :=
  { inited := false, height_latest := some 5, height_low := some 0, hashes := [] }

/-- Claim C5 counterexample: with `latest = 5` and `h = 2^64 - 1 > 5 + 1`,
the claim demands backfill exactly for `[6, 2^64)` — in particular height 6 —
but the code's `h + 1` wraps to `0`, the Rust range `6..0` is empty, and
nothing is emitted. -/
theorem C5_cex :
    vC5.height_latest = some 5
    ∧ 5 + 1 < 2 ^ 64 - 1
    ∧ (update_hashes vC5 (2 ^ 64 - 1) []).2 = []
    ∧ (5 + 1 ≤ 6 ∧ 6 < (2 ^ 64 - 1) + 1) := by
  exact ⟨rfl, by decide, rfl, by decide⟩

/-- Claim C5 (amended): for every Verifier state with `latest = Some n` and
every `h` with `n + 1 < h < 2^64 - 1`, `update_hashes(h, set)` emits backfill
requests exactly for the heights in `[n + 1, h + 1)` and returns without
inserting, leaving the whole state unchanged (for `h = 2^64 - 1` the range
end wraps and nothing is emitted, the state still unchanged). -/
theorem C5_jump_ahead (v : Verifier) (n h : Nat) (s : List H256)
    (hl : v.height_latest = some n) (hlt : n + 1 < h) (hub : h < 2 ^ 64 - 1) :
    update_hashes v h s = (v, List.range' (n + 1) (h - n)) := by
  rw [update_hashes_eq_else v n h s hl]
  unfold updateElse
  rw [hl]
  simp only [Option.getD_some]
  have hsucc : (n + 1) % U64MOD = n + 1 := Nat.mod_eq_of_lt (by unfold U64MOD; omega)
  have hh1 : (h + 1) % U64MOD = h + 1 := Nat.mod_eq_of_lt (by unfold U64MOD; omega)
  rw [hsucc, if_neg (by omega), if_pos (by omega), hh1]
  unfold send_txhashs_req
  congr 2
  omega

/-- The Verifier state of the spec's scenario S4 (`latest = 10`). -/
def vS4 : Verifier :=
  { inited := false, height_latest := some 10, height_low := some 0, hashes := [] }

/-- Witness for C5_jump_ahead: scenario S4, `latest = 10`, call at `h = 15`
emits exactly `[11, 16)` and leaves the state unchanged. -/
theorem C5_jump_ahead_witness :
    update_hashes vS4 15 [] = (vS4, List.range' 11 5) :=
  C5_jump_ahead vS4 10 15 [] rfl (by decide) (by decide)

/-- A Verifier state with `height_latest = 2^64 - 2`, reachable by a first
call at that height. -/
def vC6 : Verifier :=
  { inited := false, height_latest := some (2 ^ 64 - 2),
    height_low := some (2 ^ 64 - 101), hashes := [] }

/-- Claim C6 counterexample: with `latest = n = 2^64 - 2` and
`v = 2^64 - 1` we have `n < v ≤ n + BLOCKLIMIT` in exact arithmetic, yet
`verify_valid_until_block` returns `false` because the `u64` addition
`n + BLOCKLIMIT` wraps to `98`. -/
theorem C6_cex :
    vC6.height_latest = some (2 ^ 64 - 2)
    ∧ (2 ^ 64 - 2 < 2 ^ 64 - 1 ∧ 2 ^ 64 - 1 ≤ (2 ^ 64 - 2) + BLOCKLIMIT)
    ∧ verify_valid_until_block vC6 (2 ^ 64 - 1) = false := by
  exact ⟨rfl, by decide, rfl⟩

/-- Claim C6 (amended): if `latest` is `None` the check returns `false`; if
`latest = Some n` it returns `true` exactly when `n < v` and
`v ≤ (n + BLOCKLIMIT) mod 2^64` (the `u64` addition wraps); whenever
`n + BLOCKLIMIT < 2^64` this coincides with the exact reading
`n < v ∧ v ≤ n + BLOCKLIMIT`. -/
theorem C6_valid_until (v : Verifier) (vub : Nat) :
    (v.height_latest = none → verify_valid_until_block v vub = false)
    ∧ (∀ n, v.height_latest = some n →
        (verify_valid_until_block v vub = true ↔
          n < vub ∧ vub ≤ (n + BLOCKLIMIT) % U64MOD)
        ∧ (n + BLOCKLIMIT < U64MOD →
          (verify_valid_until_block v vub = true ↔
            n < vub ∧ vub ≤ n + BLOCKLIMIT))) := by
  constructor
  · intro hl
    unfold verify_valid_until_block
    rw [hl]
  · intro n hl
    unfold verify_valid_until_block
    rw [hl]
    constructor
    · simp
    · intro hnb
      show (decide (n < vub) && decide (vub ≤ (n + BLOCKLIMIT) % U64MOD)) = true ↔
        n < vub ∧ vub ≤ n + BLOCKLIMIT
      rw [Nat.mod_eq_of_lt hnb]
      simp

/-- A small initialized-looking Verifier state used by witnesses. -/
def vW6 : Verifier :=
  { inited := true, height_latest := some 10, height_low := some 0, hashes := [] }

/-- Witness for C6_valid_until: with `latest = 10`, `v = 50` is accepted. -/
theorem C6_valid_until_witness :
    verify_valid_until_block vW6 50 = true :=
  ((C6_valid_until vW6 50).2 10 rfl).1.mpr (by decide)

/-- The Verifier state after a first call `update_hashes(100, ∅)`:
`latest = 100`, `low = 1`, the map holds `(100, ∅)`. -/
def vC9 : Verifier := (update_hashes Verifier.new 100 []).1

/-- Claim C9 counterexample: at the within-window height `h = 100`
(`low = 1 ≤ 100 ≤ 100 = latest`), a second call `update_hashes(100, {x})`
with a different set overwrites the entry created by the first call, so the
retained value does not stay the originally created set. -/
theorem C9_cex :
    mapGet 100 vC9.hashes = some []
    ∧ vC9.height_low.getD 0 ≤ 100
    ∧ 100 ≤ vC9.height_latest.getD 0
    ∧ mapGet 100 (update_hashes vC9 100 [[1]]).1.hashes = some [[1]]
    ∧ ([[1]] : List H256).length = 1
    ∧ ([] : List H256).length = 0 := by
  exact ⟨rfl, by decide, by decide, rfl, rfl, rfl⟩

/-- Claim C9 (amended): the within-window path of `update_hashes` overwrites:
for `latest = Some n` (below the wrap point), `h ≤ n` and `low ≤ h`, the call
`update_hashes(h, set2)` sets the retained value at `h` to `set2` — even if a
different set was stored before — and leaves the value at every other height
unchanged; an entry is destroyed only when `low` advances past its height. -/
theorem C9_overwrite (v : Verifier) (n h : Nat) (s2 : List H256)
    (hl : v.height_latest = some n) (hn : n < 2 ^ 64 - 1) (hle : h ≤ n)
    (hlow : v.height_low.getD 0 ≤ h) :
    mapGet h (update_hashes v h s2).1.hashes = some s2
    ∧ ∀ k, k ≠ h → mapGet k (update_hashes v h s2).1.hashes = mapGet k v.hashes := by
  rw [update_hashes_eq_else v n h s2 hl]
  unfold updateElse
  rw [hl]
  simp only [Option.getD_some]
  have hsucc : (n + 1) % U64MOD = n + 1 := Nat.mod_eq_of_lt (by unfold U64MOD; omega)
  rw [hsucc, if_neg (by omega), if_neg (by omega), if_neg (by omega)]
  unfold finishInsert
  constructor
  · show mapGet h (mapInsert h s2 v.hashes) = some s2
    rw [mapGet_mapInsert]
    simp
  · intro k hk
    show mapGet k (mapInsert h s2 v.hashes) = mapGet k v.hashes
    rw [mapGet_mapInsert, if_neg hk]

/-- Witness for C9_overwrite: in the state after `update_hashes(100, ∅)`,
a call at the in-window height 50 stores its set at 50 and leaves the entry
at 100 unchanged. -/
theorem C9_overwrite_witness :
    mapGet 50 (update_hashes vC9 50 [[2]]).1.hashes = some [[2]]
    ∧ mapGet 100 (update_hashes vC9 50 [[2]]).1.hashes = mapGet 100 vC9.hashes := by
  have h := C9_overwrite vC9 100 50 [[2]] rfl (by decide) (by decide) (by decide)
  exact ⟨h.1, h.2 100 (by decide)⟩

/-- Claim C2: `verfiy_tx` follows the spec's check order — nonce longer than
128 bytes yields `InvalidNonce`; otherwise a hash reported present by the
window yields `Dup` when `inited` and `NotReady` when not; otherwise a
signature of wrong length, unsupported crypto kind, or failed recovery, or a
non-empty `req.signer` differing from the recovered key, yields `BadSig`;
otherwise `OK` with the recovered signer in the response. -/
theorem C2_verify_order (cm : CryptoModel) (v : Verifier) (req : VerifyTxReq) :
    (128 < req.nonce.length →
      verfiy_tx cm v req =
        { tx_hash := req.tx_hash, ret := Ret.InvalidNonce, signer := [] })
    ∧ (req.nonce.length ≤ 128 → check_hash_exist v req.tx_hash = true →
      verfiy_tx cm v req =
        { tx_hash := req.tx_hash,
          ret := if v.inited then Ret.Dup else Ret.NotReady, signer := [] })
    ∧ (verify_sig cm req = none ↔
        (req.signature.length ≠ cm.SIGNATURE_BYTES_LEN ∨ req.crypto ≠ Crypto.SECP
          ∨ cm.recover req.hash req.signature = none))
    ∧ (req.nonce.length ≤ 128 → check_hash_exist v req.tx_hash = false →
        verify_sig cm req = none →
      verfiy_tx cm v req = { tx_hash := req.tx_hash, ret := Ret.BadSig, signer := [] })
    ∧ (∀ pk, req.nonce.length ≤ 128 → check_hash_exist v req.tx_hash = false →
        verify_sig cm req = some pk → req.signer ≠ [] → req.signer ≠ pk.val →
      verfiy_tx cm v req = { tx_hash := req.tx_hash, ret := Ret.BadSig, signer := [] })
    ∧ (∀ pk, req.nonce.length ≤ 128 → check_hash_exist v req.tx_hash = false →
        verify_sig cm req = some pk → (req.signer = [] ∨ req.signer = pk.val) →
      verfiy_tx cm v req =
        { tx_hash := req.tx_hash, ret := Ret.OK, signer := pk.val }) := by
  refine ⟨?_, ?_, ?_, ?_, ?_, ?_⟩
  · intro h1
    unfold verfiy_tx
    rw [if_pos h1]
  · intro h1 h2
    unfold verfiy_tx
    rw [if_neg (by omega), if_pos h2]
  · unfold verify_sig
    by_cases hlen : req.signature.length = cm.SIGNATURE_BYTES_LEN
    · rw [if_neg (by simp [hlen])]
      cases hcr : req.crypto
      · simp [hlen]
      · simp [hlen]
    · rw [if_pos hlen]
      simp [hlen]
  · intro h1 h2 h3
    unfold verfiy_tx
    rw [if_neg (by omega), if_neg (by simp [h2]), h3]
  · intro pk h1 h2 h3 h4 h5
    unfold verfiy_tx
    rw [if_neg (by omega), if_neg (by simp [h2]), h3]
    show (if req.signer ≠ [] ∧ req.signer ≠ pk.val then _ else _) = _
    rw [if_pos ⟨h4, h5⟩]
  · intro pk h1 h2 h3 h4
    unfold verfiy_tx
    rw [if_neg (by omega), if_neg (by simp [h2]), h3]
    show (if req.signer ≠ [] ∧ req.signer ≠ pk.val then _ else _) = _
    rw [if_neg (by rcases h4 with h | h <;> simp [h])]

/-- A fixed 64-byte recovered public key used by witnesses. -/
def pk0 : PubKey := ⟨List.replicate 64 7, by simp⟩

/-- A concrete crypto collaborator: 65-byte signatures, recovery always
succeeding with `pk0`. -/
def cm0 : CryptoModel := ⟨65, fun _ _ => some pk0⟩

/-- The Verifier state after `update_hashes(0, ∅)`: initialized, window
`{0 ↦ ∅}`. -/
def vInit0 : Verifier := (update_hashes Verifier.new 0 []).1

/-- A well-formed request with unseen tx hash, valid-length signature, SECP
crypto and empty signer. -/
def reqOK : VerifyTxReq :=
  { tx_hash := [1], hash := [2], signature := List.replicate 65 0,
    crypto := Crypto.SECP, nonce := [], signer := [], valid_until_block := 5 }

/-- Witness for C2_verify_order: the `OK` path on an initialized window with
an unseen hash, and the `NotReady` path on a fresh (uninitialized) window. -/
theorem C2_verify_order_witness :
    verfiy_tx cm0 vInit0 reqOK =
      { tx_hash := [1], ret := Ret.OK, signer := List.replicate 64 7 }
    ∧ verfiy_tx cm0 Verifier.new reqOK =
      { tx_hash := [1], ret := Ret.NotReady, signer := [] } := by
  constructor
  · exact (C2_verify_order cm0 vInit0 reqOK).2.2.2.2.2 pk0 (by decide) rfl rfl
      (Or.inl rfl)
  · exact (C2_verify_order cm0 Verifier.new reqOK).2.1 (by decide) rfl

/-- Claim C10: every `VerifyTxResp` produced by `verfiy_tx` echoes the
request's `tx_hash`, and its `signer` field is non-empty exactly when `ret`
is `OK`; on every error result the signer stays at its default empty value. -/
theorem C10_resp_frame (cm : CryptoModel) (v : Verifier) (req : VerifyTxReq) :
    (verfiy_tx cm v req).tx_hash = req.tx_hash
    ∧ ((verfiy_tx cm v req).signer ≠ [] ↔ (verfiy_tx cm v req).ret = Ret.OK)
    ∧ ((verfiy_tx cm v req).ret ≠ Ret.OK → (verfiy_tx cm v req).signer = []) := by
  unfold verfiy_tx
  by_cases h1 : 128 < req.nonce.length
  · rw [if_pos h1]
    exact ⟨rfl, by simp, fun _ => rfl⟩
  · rw [if_neg h1]
    by_cases h2 : check_hash_exist v req.tx_hash = true
    · rw [if_pos h2]
      refine ⟨rfl, ?_, fun _ => rfl⟩
      cases hi : v.inited <;> simp
    · rw [if_neg h2]
      cases hsig : verify_sig cm req with
      | none => exact ⟨rfl, by simp, fun _ => rfl⟩
      | some pk =>
          dsimp only
          by_cases h3 : req.signer ≠ [] ∧ req.signer ≠ pk.val
          · rw [if_pos h3]
            exact ⟨rfl, by simp, fun _ => rfl⟩
          · rw [if_neg h3]
            refine ⟨rfl, ?_, fun hok => absurd rfl hok⟩
            have hpk : pk.val.length = 64 := pk.2
            simp only [eq_self_iff_true, iff_true]
            intro hnil
            rw [hnil] at hpk
            simp at hpk

/-- Witness for C10_resp_frame: on the `NotReady` path the response echoes
the tx hash and the signer stays empty. -/
theorem C10_resp_frame_witness :
    (verfiy_tx cm0 Verifier.new reqOK).tx_hash = [1]
    ∧ (verfiy_tx cm0 Verifier.new reqOK).signer = [] :=
  ⟨(C10_resp_frame cm0 Verifier.new reqOK).1,
    (C10_resp_frame cm0 Verifier.new reqOK).2.2 (by decide)⟩

theorem two_le_U64MOD : 2 ≤ U64MOD := by
  unfold U64MOD
  calc (2 : Nat) = 2 ^ 1 := by norm_num
  _ ≤ 2 ^ 64 := Nat.pow_le_pow_right (by norm_num) (by norm_num)

theorem ne_succ_mod (h : Nat) : h ≠ (h + 1) % U64MOD := by
  intro hc
  have h2 := two_le_U64MOD
  have hlt : (h + 1) % U64MOD < U64MOD := Nat.mod_lt _ (by omega)
  by_cases hb : h + 1 < U64MOD
  · rw [Nat.mod_eq_of_lt hb] at hc
    omega
  · have hh : h + 1 = U64MOD := by omega
    rw [hh, Nat.mod_self] at hc
    omega

theorem mapGet_fill_cases (k ph : Nat) (p : Proof) (m : List (Nat × BlockInQueue)) :
    (∀ blk pr, mapGet k m = some (BlockInQueue.ConsensusBlock blk pr) →
      mapGet k (fillProofSlot ph p m) = some (BlockInQueue.ConsensusBlock blk pr))
    ∧ (∀ blk q, mapGet k m = some (BlockInQueue.SyncBlock blk (some q)) →
      mapGet k (fillProofSlot ph p m) = some (BlockInQueue.SyncBlock blk (some q)))
    ∧ (∀ blk, mapGet k m = some (BlockInQueue.SyncBlock blk none) →
      mapGet k (fillProofSlot ph p m) = some (BlockInQueue.SyncBlock blk none)
      ∨ mapGet k (fillProofSlot ph p m) = some (BlockInQueue.SyncBlock blk (some p))) := by
  have hrw := mapGet_fillProofSlot k ph p m
  by_cases hk : k = ph
  · rw [if_pos hk] at hrw
    refine ⟨?_, ?_, ?_⟩
    · intro blk pr hm
      rw [hrw, hm]
      rfl
    · intro blk q hm
      rw [hrw, hm]
      rfl
    · intro blk hm
      rw [hrw, hm]
      exact Or.inr rfl
  · rw [if_neg hk] at hrw
    rw [hrw]
    exact ⟨fun blk pr hm => hm, fun blk q hm => hm, fun blk hm => Or.inl hm⟩

/-- The chain state of spec scenario S6-like witnesses: empty queue,
`max_store_height = max_height = current = 5`, Tendermint chain. -/
def s5 : ChainState := ⟨[], 5, 5, 5, some ProofType.Tendermint, none, []⟩

/-- A consensus `BlockWithProof` at height 6. -/
def pb6 : BlockWithProof := ⟨⟨6, some ProofType.Tendermint, ⟨5, 0⟩⟩, ⟨5, 0⟩⟩

/-- A consensus `BlockWithProof` at height 9 (out of order w.r.t. `s5`). -/
def pb9 : BlockWithProof := ⟨⟨9, some ProofType.Tendermint, ⟨5, 0⟩⟩, ⟨5, 0⟩⟩

/-- A chain state whose `max_store_height` is the `u64::MAX` unset sentinel. -/
def sMAX : ChainState := ⟨[], 2 ^ 64 - 1, 0, 0, some ProofType.Tendermint, none, []⟩

/-- A consensus `BlockWithProof` at height 0. -/
def pbZero : BlockWithProof := ⟨⟨0, some ProofType.Tendermint, ⟨0, 0⟩⟩, ⟨0, 0⟩⟩

/-- Claim C7 counterexample: with `max_store_height = u64::MAX` (the unset
sentinel) a consensus block at height 0 has `h ≠ max_store_height + 1` in
exact arithmetic, yet the wrapped comparison `0 = (2^64-1)+1 mod 2^64`
accepts it: the state changes and a `BlockTxHashes` emission occurs. -/
theorem C7_cex :
    sMAX.max_store_height + 1 = 2 ^ 64
    ∧ pbZero.blk.height = 0
    ∧ (0 : Nat) < 2 ^ 64
    ∧ (consensus_block_enqueue sMAX pbZero).1.max_store_height = 0
    ∧ (consensus_block_enqueue sMAX pbZero).2 = [0]
    ∧ (0 : Nat) < sMAX.max_store_height := by
  exact ⟨by decide, rfl, by decide, rfl, rfl, by decide⟩

/-- Claim C7 (amended): consensus-enqueue of a `BlockWithProof` at height `h`
with `h ≠ (max_store_height + 1) mod 2^64` — for `max_store_height` below the
sentinel this is exactly `h ≠ max_store_height + 1` — performs no state
change at all and emits nothing; re-delivering the same `BlockWithProof`
after a successful enqueue is always a no-op. -/
theorem C7_out_of_order (s : ChainState) (pb : BlockWithProof) :
    (pb.blk.height ≠ (s.max_store_height + 1) % U64MOD →
      consensus_block_enqueue s pb = (s, []))
    ∧ (pb.blk.height = (s.max_store_height + 1) % U64MOD →
      consensus_block_enqueue (consensus_block_enqueue s pb).1 pb
        = ((consensus_block_enqueue s pb).1, [])) := by
  constructor
  · intro hne
    unfold consensus_block_enqueue
    rw [if_neg hne]
  · intro he
    have hmsh : (consensus_block_enqueue s pb).1.max_store_height = pb.blk.height := by
      unfold consensus_block_enqueue
      rw [if_pos he]
    set s1 := (consensus_block_enqueue s pb).1 with hs1
    show consensus_block_enqueue s1 pb = (s1, [])
    unfold consensus_block_enqueue
    rw [if_neg (by rw [hmsh]; exact ne_succ_mod pb.blk.height)]

/-- Witness for C7_out_of_order: over `s5` (frontier 5), height 9 is ignored
with no state change, and re-delivering the accepted height-6 block is a
no-op. -/
theorem C7_out_of_order_witness :
    consensus_block_enqueue s5 pb9 = (s5, [])
    ∧ consensus_block_enqueue (consensus_block_enqueue s5 pb6).1 pb6
        = ((consensus_block_enqueue s5 pb6).1, []) :=
  ⟨(C7_out_of_order s5 pb9).1 (by decide), (C7_out_of_order s5 pb6).2 (by decide)⟩

/-- A chain state with stored frontier 5 but executed frontier 3 (the
executor lags), as happens while sync runs ahead of execution. -/
def sC1 : ChainState := ⟨[], 5, 3, 3, some ProofType.Tendermint, none, []⟩

/-- A sync block at height 4 whose proof is at height 3 = `max_height`. -/
def bC1 : Block := ⟨4, some ProofType.Tendermint, ⟨3, 0⟩⟩

/-- Claim C1 counterexample: `add_sync_block` of a height-4 block whose proof
height equals `max_height = 3` is accepted while `max_store_height = 5`, and
stores `max_store_height = 4 < 5`: the stored frontier decreases. -/
theorem C1_cex :
    (add_sync_block sC1 bC1).map (fun r => r.1.max_store_height) = some 4
    ∧ sC1.max_store_height = 5 := by
  exact ⟨rfl, rfl⟩

/-- Claim C1 (amended): consensus-enqueue never decreases `max_store_height`
when it is below the `u64::MAX` sentinel, and advances it by exactly 1 on
acceptance; `add_sync_block` either leaves `max_store_height` unchanged or
sets it to the delivered block's header height, so it is non-decreasing
whenever that height is at least the current `max_store_height` (as for
protocol-compliant forward sync), but can lower it otherwise. -/
theorem C1_monotone (s : ChainState) (pb : BlockWithProof) (b : Block) :
    (s.max_store_height < usizeMAX →
      s.max_store_height ≤ (consensus_block_enqueue s pb).1.max_store_height)
    ∧ (s.max_store_height < usizeMAX → pb.blk.height = s.max_store_height + 1 →
      (consensus_block_enqueue s pb).1.max_store_height = s.max_store_height + 1)
    ∧ (∀ s' out, add_sync_block s b = some (s', out) →
        s.max_store_height ≤ b.height →
        s.max_store_height ≤ s'.max_store_height)
    ∧ (∀ s' out, add_sync_block s b = some (s', out) →
        s'.max_store_height = s.max_store_height
        ∨ s'.max_store_height = b.height) := by
  have hmod : (s.max_store_height + 1) % U64MOD = s.max_store_height + 1 ∨
      usizeMAX ≤ s.max_store_height := by
    by_cases hb : s.max_store_height < usizeMAX
    · left
      apply Nat.mod_eq_of_lt
      unfold usizeMAX at hb
      unfold U64MOD
      have h1 : (1 : Nat) ≤ 2 ^ 64 := Nat.one_le_two_pow
      omega
    · right
      omega
  have hsync : ∀ s' out, add_sync_block s b = some (s', out) →
      s'.max_store_height = s.max_store_height ∨ s'.max_store_height = b.height := by
    intro s' out heq
    unfold add_sync_block at heq
    by_cases hpt : s.chain_proof_type ≠ b.proof_type
    · rw [if_pos hpt] at heq
      simp only [Option.some.injEq, Prod.mk.injEq] at heq
      rw [← heq.1]
      exact Or.inl rfl
    · rw [if_neg hpt] at heq
      cases hbt : b.proof_type with
      | none =>
          rw [hbt] at heq
          cases heq
      | some pt =>
          rw [hbt] at heq
          cases pt with
          | Tendermint =>
              dsimp only at heq
              by_cases hH : b.height ≠ usizeMAX
              · rw [if_pos hH] at heq
                by_cases hcond : (if b.proof.height = usizeMAX then 0 else b.proof.height)
                    = s.max_height ∨
                    (if b.proof.height = usizeMAX then 0 else b.proof.height)
                    = s.max_store_height
                · rw [if_pos hcond] at heq
                  simp only [Option.some.injEq, Prod.mk.injEq] at heq
                  rw [← heq.1]
                  exact Or.inr rfl
                · rw [if_neg hcond] at heq
                  simp only [Option.some.injEq, Prod.mk.injEq] at heq
                  rw [← heq.1]
                  exact Or.inl rfl
              · rw [if_neg hH] at heq
                by_cases hcur : s.current_height <
                    (if b.proof.height = usizeMAX then 0 else b.proof.height)
                · rw [if_pos hcur] at heq
                  simp only [Option.some.injEq, Prod.mk.injEq] at heq
                  rw [← heq.1]
                  exact Or.inl rfl
                · rw [if_neg hcur] at heq
                  simp only [Option.some.injEq, Prod.mk.injEq] at heq
                  rw [← heq.1]
                  exact Or.inl rfl
          | Raft =>
              cases heq
          | AuthorityRound =>
              cases heq
  refine ⟨?_, ?_, ?_, hsync⟩
  · intro hb
    unfold consensus_block_enqueue
    by_cases hc : pb.blk.height = (s.max_store_height + 1) % U64MOD
    · rw [if_pos hc]
      show s.max_store_height ≤ pb.blk.height
      rcases hmod with hm | hm
      · omega
      · omega
    · rw [if_neg hc]
  · intro hb he
    unfold consensus_block_enqueue
    rcases hmod with hm | hm
    · rw [if_pos (by rw [hm]; exact he)]
      exact he
    · omega
  · intro s' out heq hge
    rcases hsync s' out heq with hm | hm
    · omega
    · omega

/-- The chain state of spec scenario S7: a sync block at 6 enqueued with
`None` proof, stored frontier 6, executed frontier 5. -/
def b6blk : Block := ⟨6, some ProofType.Tendermint, ⟨5, 1⟩⟩

/-- A sync block at height 7 carrying the proof for height 6. -/
def b7blk : Block := ⟨7, some ProofType.Tendermint, ⟨6, 3⟩⟩

/-- Scenario S7 state before the height-7 delivery. -/
def s7 : ChainState :=
  ⟨[(6, BlockInQueue.SyncBlock b6blk none)], 6, 5, 5, some ProofType.Tendermint, none, []⟩

/-- Scenario S7 state after the height-7 delivery: proof slot at 6 filled,
block 7 inserted with `None` proof, frontier 7. -/
def s7res : ChainState :=
  ⟨[(7, BlockInQueue.SyncBlock b7blk none),
    (6, BlockInQueue.SyncBlock b6blk (some ⟨6, 3⟩))], 7, 5, 5,
    some ProofType.Tendermint, none, [(7, b7blk)]⟩

/-- Witness for C1_monotone: the out-of-order consensus case over `s5` plus
the forward-sync case S7 where the delivered height 7 is above the frontier
6, so `max_store_height` does not decrease. -/
theorem C1_monotone_witness :
    (5 : Nat) ≤ (consensus_block_enqueue s5 pb9).1.max_store_height
    ∧ add_sync_block s7 b7blk = some (s7res, [7])
    ∧ s7.max_store_height ≤ s7res.max_store_height :=
  ⟨(C1_monotone s5 pb9 b7blk).1 (by decide), rfl,
    (C1_monotone s7 pb9 b7blk).2.2.1 s7res [7] rfl (by decide)⟩

/-- The filled height-6 entry's original block and proof. -/
def p6 : Proof := ⟨6, 2⟩

/-- A chain state where the entry at 6 already has its proof slot filled,
the stored frontier is 7 and the executed frontier is 5. -/
def s8 : ChainState :=
  ⟨[(6, BlockInQueue.SyncBlock b6blk (some p6))], 7, 5, 5,
    some ProofType.Tendermint, none, []⟩

/-- A re-delivered sync block at height 6 whose proof height 5 matches
`max_height`. -/
def b6new : Block := ⟨6, some ProofType.Tendermint, ⟨5, 9⟩⟩

/-- Claim C8 counterexample: the entry at height 6 is a `SyncBlock` whose
proof slot is `Some`, yet a later sync delivery at height 6 (proof height 5 =
`max_height`) replaces the whole entry with a fresh `SyncBlock(b, None)`:
the filled entry is overwritten. -/
theorem C8_cex :
    mapGet 6 s8.block_map = some (BlockInQueue.SyncBlock b6blk (some p6))
    ∧ (add_sync_block s8 b6new).map (fun r => mapGet 6 r.1.block_map)
        = some (some (BlockInQueue.SyncBlock b6new none)) := by
  exact ⟨rfl, rfl⟩

/-- Claim C8 (amended): within `add_sync_block`, the proof-slot fill itself
never overwrites — at every key other than the delivered block's header
height, a `ConsensusBlock` entry and a `SyncBlock` entry with a `Some` proof
slot are left exactly as they were, and a `SyncBlock` with `None` proof either
stays or receives `some proof` (the None-to-Some transition guarded by the
`is_none` check, in both the regular and the HMAX pseudo-block path); however
the unconditional insert at the delivered block's own height may replace any
existing entry there. -/
theorem C8_fill_guard (s : ChainState) (b : Block) :
    ∀ s' out, add_sync_block s b = some (s', out) →
      ∀ k, k ≠ b.height →
        (∀ blk pr, mapGet k s.block_map = some (BlockInQueue.ConsensusBlock blk pr) →
          mapGet k s'.block_map = some (BlockInQueue.ConsensusBlock blk pr))
        ∧ (∀ blk q, mapGet k s.block_map = some (BlockInQueue.SyncBlock blk (some q)) →
          mapGet k s'.block_map = some (BlockInQueue.SyncBlock blk (some q)))
        ∧ (∀ blk, mapGet k s.block_map = some (BlockInQueue.SyncBlock blk none) →
          mapGet k s'.block_map = some (BlockInQueue.SyncBlock blk none)
          ∨ mapGet k s'.block_map = some (BlockInQueue.SyncBlock blk (some b.proof))) := by
  intro s' out heq k hk
  unfold add_sync_block at heq
  by_cases hpt : s.chain_proof_type ≠ b.proof_type
  · rw [if_pos hpt] at heq
    simp only [Option.some.injEq, Prod.mk.injEq] at heq
    rw [← heq.1]
    exact ⟨fun blk pr hm => hm, fun blk q hm => hm, fun blk hm => Or.inl hm⟩
  · rw [if_neg hpt] at heq
    cases hbt : b.proof_type with
    | none =>
        rw [hbt] at heq
        cases heq
    | some pt =>
        rw [hbt] at heq
        cases pt with
        | Tendermint =>
            dsimp only at heq
            by_cases hH : b.height ≠ usizeMAX
            · rw [if_pos hH] at heq
              by_cases hcond : (if b.proof.height = usizeMAX then 0 else b.proof.height)
                  = s.max_height ∨
                  (if b.proof.height = usizeMAX then 0 else b.proof.height)
                  = s.max_store_height
              · rw [if_pos hcond] at heq
                simp only [Option.some.injEq, Prod.mk.injEq] at heq
                rw [← heq.1]
                have hfill := mapGet_fill_cases k
                  (if b.proof.height = usizeMAX then 0 else b.proof.height) b.proof
                  s.block_map
                refine ⟨?_, ?_, ?_⟩
                · intro blk pr hm
                  show mapGet k (mapInsert b.height (BlockInQueue.SyncBlock b none) _)
                    = _
                  rw [mapGet_mapInsert, if_neg hk]
                  exact hfill.1 blk pr hm
                · intro blk q hm
                  show mapGet k (mapInsert b.height (BlockInQueue.SyncBlock b none) _)
                    = _
                  rw [mapGet_mapInsert, if_neg hk]
                  exact hfill.2.1 blk q hm
                · intro blk hm
                  show mapGet k (mapInsert b.height (BlockInQueue.SyncBlock b none) _)
                      = _ ∨ mapGet k (mapInsert b.height (BlockInQueue.SyncBlock b none) _)
                      = _
                  rw [mapGet_mapInsert, if_neg hk]
                  exact hfill.2.2 blk hm
              · rw [if_neg hcond] at heq
                simp only [Option.some.injEq, Prod.mk.injEq] at heq
                rw [← heq.1]
                exact ⟨fun blk pr hm => hm, fun blk q hm => hm, fun blk hm => Or.inl hm⟩
            · rw [if_neg hH] at heq
              by_cases hcur : s.current_height <
                  (if b.proof.height = usizeMAX then 0 else b.proof.height)
              · rw [if_pos hcur] at heq
                simp only [Option.some.injEq, Prod.mk.injEq] at heq
                rw [← heq.1]
                exact (mapGet_fill_cases k _ b.proof s.block_map)
              · rw [if_neg hcur] at heq
                simp only [Option.some.injEq, Prod.mk.injEq] at heq
                rw [← heq.1]
                exact ⟨fun blk pr hm => hm, fun blk q hm => hm, fun blk hm => Or.inl hm⟩
        | Raft =>
            cases heq
        | AuthorityRound =>
            cases heq

/-- Witness for C8_fill_guard: scenario S7 — the height-7 delivery fills the
`None` proof slot at 6 (a key distinct from the delivered height), realizing
the None-to-Some disjunct. -/
theorem C8_fill_guard_witness :
    add_sync_block s7 b7blk = some (s7res, [7])
    ∧ (mapGet 6 s7res.block_map = some (BlockInQueue.SyncBlock b6blk none)
      ∨ mapGet 6 s7res.block_map = some (BlockInQueue.SyncBlock b6blk (some b7blk.proof))) :=
  ⟨rfl, (C8_fill_guard s7 b7blk s7res [7] rfl 6 (by decide)).2.2 b6blk rfl⟩

end Cita
